import Mathlib

/-!
Verification development for the resume-extraction pipeline
(`Backend/ocr/` of the `resumeformatter` repository).

Each Python function relevant to the checked properties is shallowly
embedded as an executable Lean definition: Python dicts become ordered
association lists (insertion-ordered, like Python dicts), floats become
rationals, fallible stage calls become `Except String`, and the optional
spaCy NER capability is modelled as unavailable (`self.nlp = None`), the
degraded configuration the code falls back to when the model is absent.
Regular-expression searches that are alternations of literal words with
`\b` boundaries are embedded by an exact word-boundary matcher; other
regex searches are taken as oracle parameters.
-/

namespace RF

/-- Python `\w` word character (ASCII): letters, digits, underscore. -/
def isWordChar (c : Char) : Bool :=
  c.isAlpha || c.isDigit || c = '_'

/-- Predicate `leadsWith needle hay`: `needle` is a prefix of `hay` (char lists). -/
def leadsWith : List Char → List Char → Bool
  | [], _ => true
  | _ :: _, [] => false
  | a :: as, b :: bs => a = b && leadsWith as bs

/-- Predicate `hasSub needle hay`: `needle` occurs contiguously in `hay`
(Python's `needle in hay` for strings). -/
def hasSub (needle : List Char) : List Char → Bool
  | [] => leadsWith needle []
  | c :: rest => leadsWith needle (c :: rest) || hasSub needle rest

/-- Python substring test `pat in hay`. -/
def strContains (hay pat : String) : Bool :=
  hasSub pat.toList hay.toList

/-- Word-character test on an optional character; a missing character
(string edge) counts as a non-word position, as in `re`. -/
def isWordOpt : Option Char → Bool
  | none => false
  | some c => isWordChar c

/-- A `\b` boundary between an optional adjacent character and a literal's
edge character: exactly one of the two sides is a word character. -/
def boundaryOk (adj : Option Char) (edge : Char) : Bool :=
  (isWordChar edge && !isWordOpt adj) || (!isWordChar edge && isWordOpt adj)

/-- One alternative of a `\b(a|b|...)\b` pattern matches at the current
position of `hay`, whose preceding character is `pre`. -/
def altMatchesAt (pre : Option Char) (hay : List Char) (lit : List Char) : Bool :=
  match lit with
  | [] => false
  | f :: _ =>
    boundaryOk pre f && leadsWith lit hay &&
      boundaryOk ((hay.drop lit.length).head?) (lit.getLastD f)

/-- Scan `hay` for a position where some alternative matches. -/
def wbGo (alts : List (List Char)) : Option Char → List Char → Bool
  | pre, [] => alts.any (altMatchesAt pre [])
  | pre, c :: rest => alts.any (altMatchesAt pre (c :: rest)) || wbGo alts (some c) rest

/-- Embeds `re.search` of a pattern `\b(l1|l2|...)\b` (literal alternatives)
against a string. All `required_patterns` of `ContentValidator` have
this shape. -/
def wbSearch (alts : List String) (text : String) : Bool :=
  wbGo (alts.map String.toList) none text.toList

/-- Python `str.lower()`. Implemented by structural recursion over the
character list so that terms evaluate by kernel reduction. -/
def lowerStr (s : String) : String :=
  ⟨s.toList.map Char.toLower⟩

/-- Strip leading and trailing whitespace from a character list. -/
def stripChars (l : List Char) : List Char :=
  ((l.dropWhile Char.isWhitespace).reverse.dropWhile Char.isWhitespace).reverse

/-- Python `str.strip()`. -/
def pyStrip (s : String) : String :=
  ⟨stripChars s.toList⟩

/-- Split a character list at every separator character (Python
`str.split(sep)` / `re.split` over a character class): empty pieces are
kept. -/
def splitP (p : Char → Bool) : List Char → List (List Char)
  | [] => [[]]
  | c :: rest =>
    match splitP p rest with
    | [] => [[c]]
    | h :: t => if p c then [] :: h :: t else (c :: h) :: t

/-- Python `str.split()` word count: maximal whitespace-separated pieces. -/
def pyWords (s : String) : List String :=
  ((splitP Char.isWhitespace s.toList).map (fun l => (⟨l⟩ : String))).filter (· ≠ "")

/-- Python `', '.join`-style joining used for the validator's reason
string (`', '.join(reasons)`). -/
def joinComma : List String → String
  | [] => ""
  | h :: t => t.foldl (fun a s => a ++ ", " ++ s) h

/-- A content block as handled by `ContentValidator.validate_sections`:
the validator reads only `block['text']` and writes only
`block['validation_warning']`. -/
structure Block where
  text : String
  warning : Option String := none
  deriving DecidableEq, Repr

/-- Expected format of a section's content (`signature['format']`). -/
inductive SigFormat
  | list
  | paragraph
  deriving DecidableEq, Repr

/-- A content signature from `ContentValidator.CONTENT_SIGNATURES`.
Each required pattern is the list of its literal alternatives. -/
structure Signature where
  required : List (List String)
  positive : List String
  negative : List String
  strongNeg : ℚ := 1
  fmt : Option SigFormat := none
  deriving Repr

/-- The dict `ContentValidator.CONTENT_SIGNATURES`, in dict insertion order.
Entity-type fields are omitted: the NER check runs only when spaCy is
loaded, and this embedding models the spaCy-unavailable configuration. -/
def signatures : List (String × Signature) :=
  [("EMPLOYMENT",
    { required := [["managed", "developed", "led", "created", "implemented",
                    "designed", "built", "responsible"],
                   ["company", "corporation", "team", "project", "product"]]
      positive := ["managed", "developed", "led", "created", "implemented", "designed",
                   "built", "responsible", "achieved", "increased", "improved", "reduced",
                   "collaborated", "coordinated", "delivered", "established", "maintained"]
      negative := ["bachelor", "master", "phd", "degree", "university", "college",
                   "gpa", "graduated", "coursework"] }),
   ("EDUCATION",
    { required := [["bachelor", "master", "phd", "b.s.", "m.s.", "b.a.", "m.a.",
                    "b.tech", "m.tech", "degree"],
                   ["university", "college", "institute", "school"]]
      positive := ["bachelor", "master", "phd", "doctorate", "degree", "university",
                   "college", "graduated", "gpa", "honors", "cum laude", "summa", "magna",
                   "diploma", "certificate", "coursework", "thesis", "dissertation",
                   "academic", "student", "scholar", "major", "minor", "concentration",
                   "education", "school", "institute"]
      negative := ["managed team", "developed product", "implemented solution",
                   "led project", "company", "corporation", "responsibilities", "duties",
                   "position", "role", "achieved", "increased revenue",
                   "improved performance", "reduced cost", "collaborated with",
                   "reported to", "supervised"]
      strongNeg := 5 }),
   ("SKILLS",
    { required := []
      positive := ["python", "java", "javascript", "c++", "sql", "html", "css",
                   "react", "angular", "node", "aws", "azure", "docker", "kubernetes",
                   "git", "linux", "windows", "api", "rest", "graphql", "mongodb",
                   "postgresql", "mysql", "agile", "scrum", "ci/cd"]
      negative := ["bachelor", "master", "university", "graduated", "gpa",
                   "managed", "developed", "led", "responsibilities"]
      fmt := some .list }),
   ("SUMMARY",
    { required := []
      positive := ["years of experience", "professional", "expertise", "specialized",
                   "passionate", "dedicated", "seeking", "objective", "goal"]
      negative := []
      fmt := some .paragraph }),
   ("PROJECTS",
    { required := [["project", "developed", "built", "created", "implemented"]]
      positive := ["project", "developed", "built", "created", "implemented",
                   "application", "website", "system", "tool", "platform"]
      negative := ["bachelor", "master", "university", "gpa"] }),
   ("CERTIFICATIONS",
    { required := [["certified", "certification", "license", "credential"]]
      positive := ["certified", "certification", "license", "credential",
                   "aws", "microsoft", "cisco", "google", "oracle"]
      negative := [] })]

/-- Result triple of `ContentValidator._validate_content`. -/
structure VResult where
  valid : Bool
  conf : ℚ
  reason : String
  deriving DecidableEq, Repr

/-- Embeds `ContentValidator._validate_content(text, section_type)`.
The NER check (check 5) is skipped because `self.nlp` is `None` in the
modelled configuration. -/
def validateContent (text : String) (sectionType : String) : VResult :=
  match (signatures.lookup sectionType) with
  | none => ⟨true, 1, "Unknown section type"⟩
  | some sig =>
    let tl := lowerStr text
    -- Check 1: required patterns (score and max-score contributions)
    let m1 : ℚ := if sig.required.isEmpty then 0 else 2
    let hit1 := !sig.required.isEmpty && sig.required.any (fun p => wbSearch p tl)
    let s1 : ℚ := if hit1 then 2 else 0
    let r1 : List String := if hit1 then ["has required pattern"] else []
    -- Check 2: positive keywords
    let m2 : ℚ := if sig.positive.isEmpty then 0 else 3
    let posCnt := sig.positive.countP (fun kw => strContains tl kw)
    let s2 : ℚ := if 0 < posCnt then min 3 ((posCnt : ℚ) / 2) else 0
    let r2 : List String :=
      if 0 < posCnt then [s!"{posCnt} positive keywords"] else []
    -- Check 3: negative keywords
    let w := sig.strongNeg
    let m3 : ℚ := if sig.negative.isEmpty then 0 else 2 * w
    let negMatches := sig.negative.countP (fun kw => strContains tl kw)
    let s3 : ℚ :=
      if sig.negative.isEmpty then 0
      else if negMatches = 0 then 2 * w else -((negMatches : ℚ) * w)
    let r3 : List String :=
      if !sig.negative.isEmpty && negMatches ≠ 0 then
        [s!"{negMatches} NEGATIVE keywords found (major issue)"]
      else []
    -- Check 4: format (list vs paragraph)
    let isList := strContains text (",") || strContains text ("•") || strContains text ("|")
    let isPara := (splitP (fun c => c = '.') text.toList).length > 2
    let m4 : ℚ := if sig.fmt.isSome then 1 else 0
    let s4 : ℚ :=
      match sig.fmt with
      | some .list => if isList then 1 else 0
      | some .paragraph => if isPara then 1 else 0
      | none => 0
    let r4 : List String :=
      match sig.fmt with
      | some .list => if isList then ["list format"] else []
      | some .paragraph => if isPara then ["paragraph format"] else []
      | none => []
    let score := s1 + s2 + s3 + s4
    let maxScore := m1 + m2 + m3 + m4
    let conf := if 0 < maxScore then score / maxScore else 1
    let reasons := r1 ++ r2 ++ r3 ++ r4
    let reason := if reasons.isEmpty then "no matching indicators"
                  else joinComma reasons
    ⟨decide ((2 : ℚ)/5 ≤ conf), conf, reason⟩

/-- Embeds `ContentValidator._find_correct_section(text)`: best-scoring section
type over all signatures (strict improvement, first maximum wins),
returned only when its confidence reaches 0.5. -/
def findCorrectSection (text : String) : Option String :=
  let best := signatures.foldl
    (fun (acc : Option String × ℚ) p =>
      if acc.2 < (validateContent text p.1).conf
      then (some p.1, (validateContent text p.1).conf) else acc)
    (none, 0)
  if (1 : ℚ)/2 ≤ best.2 then best.1 else none

/-- Ordered association list standing for an insertion-ordered Python
dict of sections. -/
abbrev Sections := List (String × List Block)

/-- Python `k in d` for the sections dict. -/
def containsKey (st : Sections) (k : String) : Bool :=
  st.any (fun p => p.1 = k)

/-- Python `if k not in d: d[k] = []`. -/
def ensureKey (st : Sections) (k : String) : Sections :=
  if containsKey st k then st else st ++ [(k, [])]

/-- Python `d[k].append(b)` (first occurrence of the key is updated;
keys are unique in dicts). -/
def appendAt : Sections → String → Block → Sections
  | [], k, b => [(k, [b])]
  | (k', bs) :: rest, k, b =>
    if k' = k then (k', bs ++ [b]) :: rest else (k', bs) :: appendAt rest k b

/-- Body of the per-block loop of `ContentValidator.validate_sections`. -/
def processBlock (st : Sections) (sectionName : String) (b : Block) : Sections :=
  if pyStrip b.text = "" then st
  else
    let r := validateContent b.text sectionName
    if r.valid && decide ((1 : ℚ)/2 ≤ r.conf) then appendAt st sectionName b
    else
      match findCorrectSection b.text with
      | some cs =>
        if cs ≠ sectionName then appendAt (ensureKey st cs) cs b
        else if decide (r.conf < (3 : ℚ)/10) then st
        else appendAt st sectionName { b with warning := some r.reason }
      | none =>
        if decide (r.conf < (3 : ℚ)/10) then st
        else appendAt st sectionName { b with warning := some r.reason }

/-- One iteration of the per-section loop of `validate_sections`. -/
def processSection (st : Sections) (entry : String × List Block) : Sections :=
  entry.2.foldl (fun st b => processBlock st entry.1 b) (ensureKey st entry.1)

/-- Embeds `ContentValidator.validate_sections(sections)`. -/
def validateSections (sections : Sections) : Sections :=
  sections.foldl processSection []

/-! ### Orchestrator (`AdvancedResumeOCR`) -/

/-- The result dict returned by the pipeline entry points. Only the keys
read by the checked properties are modelled; `none` on a field means the
returned dict carries no such key at all. -/
structure ResultDict where
  success : Option Bool := none
  error : Option String := none
  candidate_info : Option (List (String × String)) := none
  sections : Option (List (String × String)) := none
  quality_scores : Option (List (String × ℚ)) := none
  warnings : Option (List String) := none
  recommendations : Option (List String) := none
  processing_time : Option ℚ := none
  pipeline_version : Option String := none
  deriving DecidableEq, Repr

/-- The seven pipeline stages as fallible computations. A Python
exception with message `e` raised inside a stage is `Except.error e`. -/
structure Stages (α β γ δ ε : Type) where
  layout : Except String α
  ocr : α → Except String β
  identify : β → Except String γ
  validate : γ → Except String γ
  header : β → α → Except String δ
  mapToTemplate : δ → γ → Except String ε
  post : ε → Except String ResultDict

/-- The `try` body of `AdvancedResumeOCR.process_resume`: the seven
stages sequenced strictly in order, each full output handed to the
next stage. -/
def runStages {α β γ δ ε : Type} (st : Stages α β γ δ ε) : Except String ResultDict := do
  let li ← st.layout
  let ocrOut ← st.ocr li
  let ids ← st.identify ocrOut
  let vs ← st.validate ids
  let hi ← st.header ocrOut li
  let md ← st.mapToTemplate hi vs
  st.post md

/-- The terminal failure dict built in the `except` branch of
`process_resume`. -/
def failureResult (msg : String) : ResultDict :=
  { success := some false
    error := some msg
    candidate_info := some []
    sections := some []
    quality_scores := some [("overall", 0)]
    warnings := some [msg]
    recommendations := some ["Please try manual data entry"] }

/-- Embeds `AdvancedResumeOCR.process_resume`: run the seven stages inside a
single top-level `try`; any stage exception becomes the terminal
failure result. `duration` is the measured wall-clock time. -/
def processResume {α β γ δ ε : Type} (st : Stages α β γ δ ε) (duration : ℚ) : ResultDict :=
  match runStages st with
  | .ok out =>
    { out with processing_time := some duration, pipeline_version := some ("1.0.0") }
  | .error e => failureResult ("Error processing resume: " ++ e)

/-- Embeds `AdvancedResumeOCR.process_docx_resume` on its non-raising path:
`combinedImage` is the value of `docx_to_ocr_image(docx_path)` (`none`
when the DOCX holds no embedded images) and `docText` the value of
`extract_text_from_docx(docx_path)` (`""` when no text is extractable).
`processImage` is `self.process_resume` applied to the combined image. -/
def processDocxResume {α : Type} (combinedImage : Option α) (docText : String)
    (processImage : α → ResultDict) : ResultDict :=
  match combinedImage with
  | none =>
    if docText ≠ "" then
      { success := some true
        candidate_info := some [("name", "Unknown")]
        sections := some [("RAW_TEXT", docText)]
        quality_scores := some [("overall", 1/2)]
        warnings := some ["No images found in DOCX, extracted text only"]
        recommendations := some ["Convert resume to image format for better OCR"] }
    else
      { success := some false
        error := some ("No images or text found in DOCX")
        warnings := some ["DOCX appears to be empty"]
        recommendations := some ["Please check the DOCX file"] }
  | some img => processImage img

/-- The keys of `SectionIdentifier.SECTION_MAPPINGS`: the eight
canonical section types. -/
def canonicalSectionTypes : List String :=
  ["EMPLOYMENT", "EDUCATION", "SKILLS", "SUMMARY", "PROJECTS",
   "CERTIFICATIONS", "ACHIEVEMENTS", "LANGUAGES"]

/-! ### Post-Processor quality scores -/

/-- Python dict lookup with a default empty string. -/
def dictGetS (d : List (String × String)) (k : String) : String :=
  (d.lookup k).getD ("")

/-- Input read by `PostProcessor._calculate_quality_scores`. -/
structure MappedData where
  candidate_info : List (String × String)
  sections : List (String × String)

/-- The per-field and overall quality scores. -/
structure QScores where
  name : ℚ
  contact : ℚ
  employment : ℚ
  education : ℚ
  skills : ℚ
  summary : ℚ
  overall : ℚ
  deriving Repr

/-- Score of one section by word-count buckets (body of the section
loop of `_calculate_quality_scores`). -/
def sectionScore (content : String) : ℚ :=
  if content ≠ "" then
    let wc := (pyWords content).length
    if 20 < wc then 9/10 else if 5 < wc then 7/10 else 1/2
  else 0

/-- Embeds `PostProcessor._calculate_quality_scores(data, completeness)` (the
`completeness` argument is never read by the Python body). -/
def calculateQualityScores (data : MappedData) : QScores :=
  let nm := dictGetS data.candidate_info ("name")
  let nameScore : ℚ :=
    if nm ≠ "" then
      let wc := (pyWords nm).length
      if 2 ≤ wc ∧ wc ≤ 4 then 95/100 else if wc = 1 then 1/2 else 7/10
    else 0
  let contactCount :=
    (["email", "phone", "linkedin"].countP (fun f => dictGetS data.candidate_info f ≠ ""))
  let contactScore : ℚ := min 1 ((contactCount : ℚ) / 2)
  let e := sectionScore (dictGetS data.sections ("EMPLOYMENT"))
  let ed := sectionScore (dictGetS data.sections ("EDUCATION"))
  let sk := sectionScore (dictGetS data.sections ("SKILLS"))
  let su := sectionScore (dictGetS data.sections ("SUMMARY"))
  let overall := nameScore * (25/100) + contactScore * (15/100) + e * (25/100)
      + ed * (20/100) + sk * (10/100) + su * (5/100)
  ⟨nameScore, contactScore, e, ed, sk, su, overall⟩

/-! ### Visual Layout Analyzer -/

/-- Python `int()` on a rational: truncation toward zero. -/
def pyInt (q : ℚ) : ℤ :=
  if 0 ≤ q then ⌊q⌋ else -⌊-q⌋

/-- One EasyOCR detection: quad bounding box, text, confidence
(EasyOCR reports confidence in `[0,1]`). -/
structure Detection where
  x1 : ℚ
  y1 : ℚ
  x2 : ℚ
  y2 : ℚ
  x3 : ℚ
  y3 : ℚ
  x4 : ℚ
  y4 : ℚ
  text : String
  conf : ℚ
  deriving Repr

/-- A text block as produced by
`VisualLayoutAnalyzer._extract_text_blocks`. -/
structure TextBlock where
  text : String
  x : ℤ
  y : ℤ
  width : ℤ
  height : ℤ
  confidence : ℚ
  zone : String
  is_heading : Bool
  block_num : ℕ
  deriving Repr

/-- Embeds `VisualLayoutAnalyzer._extract_text_blocks`: convert each EasyOCR
detection to a text block; the stored confidence is the detection
confidence multiplied by 100 (the code's 0-1 to 0-100 conversion). -/
def extractTextBlocks (dets : List Detection) (imgHeight : ℚ) : List TextBlock :=
  dets.enum.map fun p =>
    let d := p.2
    let xs := [d.x1, d.x2, d.x3, d.x4]
    let ys := [d.y1, d.y2, d.y3, d.y4]
    let x := pyInt (xs.foldl min d.x1)
    let y := pyInt (ys.foldl min d.y1)
    let w := pyInt (xs.foldl max d.x1 - (x : ℚ))
    let h := pyInt (ys.foldl max d.y1 - (y : ℚ))
    let zone := if (y : ℚ) < imgHeight * (15/100) then "header" else "body"
    { text := d.text, x := x, y := y, width := w, height := h
      confidence := d.conf * 100, zone := zone, is_heading := false, block_num := p.1 }

/-- The fields of a block read by
`VisualLayoutAnalyzer._create_reading_order`. -/
structure LBlock where
  x : ℚ
  y : ℚ
  width : ℚ
  deriving DecidableEq, Repr

/-- Column information from `_detect_columns`: a one-column layout, or
a two-column layout with the divider x-coordinate. -/
inductive Columns where
  | one : Columns
  | two (divider : ℚ) : Columns
  deriving Repr

/-- Comparison by the Python sort key `(block['y'], block['x'])` on
enumerated blocks (ties keep original order, as Python's stable sort). -/
def pairLe (p q : ℕ × LBlock) : Bool :=
  p.2.y < q.2.y || (p.2.y = q.2.y && p.2.x ≤ q.2.x)

/-- A block belongs to the left column: its horizontal center lies
strictly left of the divider. -/
def isLeftOf (divider : ℚ) (b : LBlock) : Bool :=
  b.x + b.width / 2 < divider

/-- Embeds `VisualLayoutAnalyzer._create_reading_order(text_blocks, columns)`. -/
def createReadingOrder (blocks : List LBlock) (cols : Columns) : List ℕ :=
  if blocks.isEmpty then []
  else
    match cols with
    | .one => (blocks.enum.mergeSort pairLe).map Prod.fst
    | .two divider =>
      let left := blocks.enum.filter (fun p => isLeftOf divider p.2)
      let right := blocks.enum.filter (fun p => !isLeftOf divider p.2)
      (left.mergeSort pairLe).map Prod.fst ++ (right.mergeSort pairLe).map Prod.fst

/-! ### Section Identifier: headingless content classification -/

/-- The list `strong_education_patterns` of
`SectionIdentifier._classify_content_by_analysis` (regex source text;
matching is delegated to the `reSearch` oracle parameter). -/
def strongEducationPatterns : List String :=
  ["\\b(bachelor|master|phd|doctorate|b\\.s\\.|m\\.s\\.|b\\.a\\.|m\\.a\\.|b\\.tech|m\\.tech)\\b",
   "\\b(university|college)\\b",
   "\\bgpa\\s*[:\\-]?\\s*\\d",
   "\\b(cum laude|magna cum laude|summa cum laude)\\b",
   "\\b(thesis|dissertation)\\b",
   "\\b(major|minor)\\s*[:\\-]",
   "\\b(academic)\\b"]

/-- The list `education_keywords` of `_classify_content_by_analysis`. -/
def educationKeywords : List String :=
  ["graduated", "graduation", "degree", "diploma", "school", "institute",
   "coursework", "honors", "academic", "student", "education"]

/-- The list `strong_employment_patterns` of `_classify_content_by_analysis`. -/
def strongEmploymentPatterns : List String :=
  ["\\b(company|corporation|inc\\.|ltd\\.|llc)\\b",
   "\\b(position|title|role)\\s*[:\\-]",
   "\\b(responsibilities|duties)\\s*[:\\-]",
   "\\d+\\s*(years?|months?)\\s+(of\\s+)?(work\\s+)?experience",
   "\\b(achieved|increased|improved|reduced)\\s+\\d+%",
   "\\b(promoted|hired|recruited)\\b",
   "\\b(employee|employer|worked at)\\b"]

/-- The list `employment_verbs` of `_classify_content_by_analysis`. -/
def employmentVerbs : List String :=
  ["managed team", "led team", "supervised", "coordinated team",
   "responsibilities included", "duties included", "reported to",
   "collaborated with", "partnered with"]

/-- The list `tech_keywords` of `_classify_content_by_analysis`. -/
def techKeywords : List String :=
  ["python", "java", "javascript", "sql", "aws", "azure", "docker",
   "react", "angular", "node", "api", "database", "cloud", "agile",
   "c++", "c#", "ruby", "php", "swift", "kotlin", "typescript"]

/-- The list `summary_keywords` of `_classify_content_by_analysis`. -/
def summaryKeywords : List String :=
  ["years of experience", "professional", "expertise in", "specialized in",
   "seeking", "passionate about", "dedicated", "experienced", "background in"]

/-- The list `project_keywords` of `_classify_content_by_analysis`. -/
def projectKeywords : List String :=
  ["project", "built application", "developed application",
   "created tool", "implemented system"]

/-- Entity counts delivered by spaCy when it is loaded. -/
structure Ner where
  org : ℕ
  date : ℕ

/-- The score dict of `_classify_content_by_analysis`, in its insertion
order EDUCATION, EMPLOYMENT, SKILLS, SUMMARY, PROJECTS. -/
structure CScores where
  education : ℕ
  employment : ℕ
  skills : ℕ
  summary : ℕ
  projects : ℕ
  deriving DecidableEq, Repr

/-- Python `max(scores, key=scores.get)` when `max(scores.values()) > 0`:
first key attaining the maximum, in dict insertion order. -/
def maxSection (s : CScores) : Option String :=
  let m := [s.education, s.employment, s.skills, s.summary, s.projects].foldl max 0
  if 0 < m then
    if s.education = m then some ("EDUCATION")
    else if s.employment = m then some ("EMPLOYMENT")
    else if s.skills = m then some ("SKILLS")
    else if s.summary = m then some ("SUMMARY")
    else some ("PROJECTS")
  else none

/-- Embeds `SectionIdentifier._classify_content_by_analysis(content)`, also
exposing the final score dict. `reSearch pat s` is the oracle for
`re.search(pat, s)`; `ner` is `None` when spaCy is unavailable. -/
def classifyContentByAnalysisFull (content : String)
    (reSearch : String → String → Bool) (ner : Option Ner) :
    Option String × CScores :=
  let cl := lowerStr content
  let eduPatCount := strongEducationPatterns.countP (fun p => reSearch p cl)
  let eduKwCount := educationKeywords.countP (fun kw => strContains cl kw)
  let edu := eduPatCount * 5 + eduKwCount * 2
  let emp :=
    if edu < 5 then
      (strongEmploymentPatterns.countP (fun p => reSearch p cl)) * 4 +
        (employmentVerbs.countP (fun v => strContains cl v)) * 3
    else 0
  if 5 ≤ edu then (some ("EDUCATION"), ⟨edu, emp, 0, 0, 0⟩)
  else if 8 ≤ emp then (some ("EMPLOYMENT"), ⟨edu, emp, 0, 0, 0⟩)
  else
    let skills :=
      if strContains content (",") || strContains content ("•") || strContains content ("|") then
        let items := (splitP (fun c => c = ',' || c = '•' || c = '|' || c = '\n')
          content.toList).map (fun l => (⟨l⟩ : String))
        let lens := (items.filter (fun w => pyStrip w ≠ "")).map
          (fun w => ((pyWords w).length : ℚ))
        if lens.length ≠ 0 ∧ lens.sum / (lens.length : ℚ) < 4 then
          5 + (techKeywords.countP (fun kw => strContains cl kw)) * 2
        else 0
      else 0
    let summary :=
      (summaryKeywords.countP (fun kw => strContains cl kw)) * 3 +
        (if ¬(leadsWith ("•".toList) content.toList = true) ∧
            ¬(leadsWith ("-".toList) content.toList = true) ∧
            (splitP (fun c => c = '.') content.toList).length > 2 then 2 else 0)
    let projects := (projectKeywords.countP (fun kw => strContains cl kw)) * 3
    let eduInstitutions := ["university", "college", "institute", "school"]
    let hasEduInst := eduInstitutions.any (fun i => strContains cl i)
    let (edu', emp') :=
      match ner with
      | none => (edu, emp)
      | some n =>
        if hasEduInst ∧ 1 ≤ n.date then (edu + 5, emp)
        else if 1 ≤ n.org ∧ 1 ≤ n.date ∧ ¬hasEduInst then (edu, emp + 3)
        else (edu, emp)
    let scores : CScores := ⟨edu', emp', skills, summary, projects⟩
    (maxSection scores, scores)

/-! ### Predicates used to state the validator invariants -/

/-- A block is stable under `validate_sections` at key `k`: it is kept
cleanly (score at least 0.5 in `k`), or it is a flagged survivor (no
relocation target, score at least the drop threshold, warning already
recorded). -/
def stable (k : String) (b : Block) : Prop :=
  pyStrip b.text ≠ "" ∧
  (((validateContent b.text k).valid && decide ((1 : ℚ)/2 ≤ (validateContent b.text k).conf)) = true
   ∨ (findCorrectSection b.text = none ∧
      decide ((validateContent b.text k).conf < (3 : ℚ)/10) = false ∧
      b.warning = some (validateContent b.text k).reason))

/-- Provenance of an output block at key `k` relative to the input
map `s`: it came from `s` under the same key, or it was relocated there
in a single step by `_find_correct_section`. -/
def origin (s : Sections) (k : String) (b : Block) : Prop :=
  (∃ q ∈ s, q.1 = k ∧ ∃ b₀ ∈ q.2, b₀.text = b.text) ∨
    findCorrectSection b.text = some k

/-- Every block of every entry of `st` satisfies `P` at its key. -/
def allBlocks (P : String → Block → Prop) (st : Sections) : Prop :=
  ∀ p ∈ st, ∀ b ∈ p.2, P p.1 b

/-- Invariant carried through the `validate_sections` loop: keys are
unique (it is a dict) and every filed block is stable with a recorded
provenance. -/
def goodState (s : Sections) (st : Sections) : Prop :=
  (st.map Prod.fst).Nodup ∧ allBlocks (fun k b => stable k b ∧ origin s k b) st

/-! ### Concrete inputs used by the witnesses and counterexamples -/

/-- A stage vector whose first stage raises `boom`. -/
def stagesW : Stages Unit Unit Unit Unit Unit :=
  { layout := .error ("boom")
    ocr := fun _ => .ok ()
    identify := fun _ => .ok ()
    validate := fun _ => .ok ()
    header := fun _ _ => .ok ()
    mapToTemplate := fun _ _ => .ok ()
    post := fun _ => .ok {} }

/-- A block whose validation score in CERTIFICATIONS is exactly 0.4
(four certification keywords, no required pattern) while EDUCATION
scores 5/6. -/
def bC2 : Block := ⟨"bachelor aws microsoft cisco google", none⟩

/-- An employment block that validates cleanly (score 5/7). -/
def bC5 : Block := ⟨"managed team at company and developed product", none⟩

/-- A sections map with one employment block that validates cleanly. -/
def sectionsC5 : Sections := [("EMPLOYMENT", [bC5])]

/-- Two blocks: one right of the divider at x-center 14, one left of it
at x-center 2. -/
def blocksC6 : List LBlock := [⟨12, 0, 4⟩, ⟨0, 5, 4⟩]

/-- An EasyOCR detection with confidence 0.9. -/
def detC9 : Detection := ⟨0, 0, 10, 0, 10, 10, 0, 10, "JOHN", 9/10⟩

/-! ## Theorems -/

/-- C1: any exception raised inside the seven pipeline stages is caught
at the Orchestrator boundary and converted into a terminal failure
result with `success=false`, empty `candidate_info` and `sections`,
`quality_scores.overall = 0`, the error message among the warnings and a
manual-data-entry recommendation; no exception reaches the caller. -/
theorem C1_exception_contained {α β γ δ ε : Type}
    (st : Stages α β γ δ ε) (duration : ℚ) (e : String)
    (h : runStages st = Except.error e) :
    processResume st duration = failureResult ("Error processing resume: " ++ e) ∧
    (processResume st duration).success = some false ∧
    (processResume st duration).candidate_info = some [] ∧
    (processResume st duration).sections = some [] ∧
    ((processResume st duration).quality_scores.getD []).lookup ("overall") = some 0 ∧
    ("Error processing resume: " ++ e) ∈ (processResume st duration).warnings.getD [] ∧
    "Please try manual data entry" ∈ (processResume st duration).recommendations.getD [] := by
  have hp : processResume st duration = failureResult ("Error processing resume: " ++ e) := by
    unfold processResume
    rw [h]
  refine ⟨hp, ?_, ?_, ?_, ?_, ?_, ?_⟩ <;> rw [hp] <;> simp [failureResult]

/-- Witness for C1: a concrete stage vector whose first stage raises. -/
theorem C1_exception_contained_witness :
    runStages stagesW = Except.error ("boom") ∧
    (processResume stagesW 0 = failureResult ("Error processing resume: " ++ "boom") ∧
     (processResume stagesW 0).success = some false ∧
     (processResume stagesW 0).candidate_info = some [] ∧
     (processResume stagesW 0).sections = some [] ∧
     ((processResume stagesW 0).quality_scores.getD []).lookup ("overall") = some 0 ∧
     ("Error processing resume: " ++ "boom") ∈ (processResume stagesW 0).warnings.getD [] ∧
     "Please try manual data entry" ∈ (processResume stagesW 0).recommendations.getD []) :=
  ⟨rfl, C1_exception_contained stagesW 0 ("boom") rfl⟩

/-- C3: every per-field quality score and the overall score lie in
`[0,1]`, and the overall score is the weighted sum of the six field
scores with weights 0.25, 0.15, 0.25, 0.20, 0.10, 0.05 (sum 1). -/
theorem C3_quality_scores_in_unit_interval (data : MappedData) :
    (0 ≤ (calculateQualityScores data).name ∧ (calculateQualityScores data).name ≤ 1) ∧
    (0 ≤ (calculateQualityScores data).contact ∧ (calculateQualityScores data).contact ≤ 1) ∧
    (0 ≤ (calculateQualityScores data).employment ∧ (calculateQualityScores data).employment ≤ 1) ∧
    (0 ≤ (calculateQualityScores data).education ∧ (calculateQualityScores data).education ≤ 1) ∧
    (0 ≤ (calculateQualityScores data).skills ∧ (calculateQualityScores data).skills ≤ 1) ∧
    (0 ≤ (calculateQualityScores data).summary ∧ (calculateQualityScores data).summary ≤ 1) ∧
    (calculateQualityScores data).overall =
      (calculateQualityScores data).name * (25/100) +
      (calculateQualityScores data).contact * (15/100) +
      (calculateQualityScores data).employment * (25/100) +
      (calculateQualityScores data).education * (20/100) +
      (calculateQualityScores data).skills * (10/100) +
      (calculateQualityScores data).summary * (5/100) ∧
    (25 : ℚ)/100 + 15/100 + 25/100 + 20/100 + 10/100 + 5/100 = 1 ∧
    0 ≤ (calculateQualityScores data).overall ∧ (calculateQualityScores data).overall ≤ 1 := by
  have hsec : ∀ c : String, 0 ≤ sectionScore c ∧ sectionScore c ≤ 1 := by
    intro c
    unfold sectionScore
    dsimp only
    split_ifs <;> norm_num
  unfold calculateQualityScores
  dsimp only
  have hname : ∀ nm : String,
      0 ≤ (if nm ≠ "" then
        if 2 ≤ (pyWords nm).length ∧ (pyWords nm).length ≤ 4 then (95 : ℚ)/100
        else if (pyWords nm).length = 1 then 1/2 else 7/10
      else 0) ∧
      (if nm ≠ "" then
        if 2 ≤ (pyWords nm).length ∧ (pyWords nm).length ≤ 4 then (95 : ℚ)/100
        else if (pyWords nm).length = 1 then 1/2 else 7/10
      else 0) ≤ 1 := by
    intro nm
    split_ifs <;> norm_num
  have hcont : ∀ n : ℕ, 0 ≤ min (1 : ℚ) ((n : ℚ)/2) ∧ min (1 : ℚ) ((n : ℚ)/2) ≤ 1 := by
    intro n
    constructor
    · apply le_min <;> positivity
    · exact min_le_left _ _
  obtain ⟨hn0, hn1⟩ := hname (dictGetS data.candidate_info ("name"))
  obtain ⟨hc0, hc1⟩ := hcont
    (["email", "phone", "linkedin"].countP (fun f => dictGetS data.candidate_info f ≠ ""))
  obtain ⟨he0, he1⟩ := hsec (dictGetS data.sections ("EMPLOYMENT"))
  obtain ⟨hd0, hd1⟩ := hsec (dictGetS data.sections ("EDUCATION"))
  obtain ⟨hs0, hs1⟩ := hsec (dictGetS data.sections ("SKILLS"))
  obtain ⟨hu0, hu1⟩ := hsec (dictGetS data.sections ("SUMMARY"))
  refine ⟨⟨hn0, hn1⟩, ⟨hc0, hc1⟩, ⟨he0, he1⟩, ⟨hd0, hd1⟩, ⟨hs0, hs1⟩, ⟨hu0, hu1⟩,
    rfl, by norm_num, ?_, ?_⟩ <;> nlinarith

/-- C7: a content string whose strong-education pattern score reaches 5
is classified EDUCATION immediately, and the employment-scoring branch
never runs for it (the final employment score is 0). -/
theorem C7_education_short_circuit (content : String)
    (reS : String → String → Bool) (ner : Option Ner)
    (h : 5 ≤ 5 * strongEducationPatterns.countP (fun p => reS p (lowerStr content))) :
    classifyContentByAnalysisFull content reS ner =
      (some ("EDUCATION"),
       ⟨strongEducationPatterns.countP (fun p => reS p (lowerStr content)) * 5 +
          educationKeywords.countP (fun kw => strContains (lowerStr content) kw) * 2,
        0, 0, 0, 0⟩) := by
  unfold classifyContentByAnalysisFull
  have h5 : 5 ≤ strongEducationPatterns.countP (fun p => reS p (lowerStr content)) * 5 +
      educationKeywords.countP (fun kw => strContains (lowerStr content) kw) * 2 := by
    omega
  rw [if_pos h5, if_neg (Nat.not_lt.mpr h5)]

/-- Witness for C7: an oracle under which every strong-education pattern
matches. -/
theorem C7_education_short_circuit_witness :
    5 ≤ 5 * strongEducationPatterns.countP
        (fun p => (fun _ _ => true) p (lowerStr ("bachelor of science"))) ∧
    classifyContentByAnalysisFull ("bachelor of science") (fun _ _ => true) none =
      (some ("EDUCATION"),
       ⟨strongEducationPatterns.countP
            (fun p => (fun _ _ => true) p (lowerStr ("bachelor of science"))) * 5 +
          educationKeywords.countP
            (fun kw => strContains (lowerStr ("bachelor of science")) kw) * 2,
        0, 0, 0, 0⟩) :=
  ⟨by decide, C7_education_short_circuit ("bachelor of science") (fun _ _ => true) none (by decide)⟩

/-- C8 counterexample: a DOCX with no embedded images and no
extractable text yields a result dict that carries no `sections` key at
all, so `sections` is not the empty map the claim asserts. -/
theorem C8_counterexample :
    (processDocxResume (none : Option Unit) "" (fun _ => {})).sections = none ∧
    (processDocxResume (none : Option Unit) "" (fun _ => {})).sections ≠ some [] := by
  constructor <;> simp [processDocxResume]

/-- C8 amended: for a DOCX with neither images nor text the result has
`success=false` and a non-empty warnings list, but no `sections` key at
all (rather than an empty sections map). -/
theorem C8_amended_no_sections_key {α : Type} (f : α → ResultDict) :
    (processDocxResume (none : Option α) "" f).success = some false ∧
    (processDocxResume (none : Option α) "" f).sections = none ∧
    (processDocxResume (none : Option α) "" f).warnings = some ["DOCX appears to be empty"] ∧
    (processDocxResume (none : Option α) "" f).warnings ≠ some [] := by
  refine ⟨?_, ?_, ?_, ?_⟩ <;> simp [processDocxResume]

/-- C10: a DOCX with no images but non-empty extracted text bypasses
the pipeline (the image-processing continuation is never consulted) and
returns `success=true`, sections holding exactly the key `RAW_TEXT`
(not a canonical section type), name `Unknown`, overall score 0.5 and a
non-empty warnings list. -/
theorem C10_raw_text_fallback {α : Type} (f : α → ResultDict) (t : String) (h : t ≠ "") :
    (processDocxResume (none : Option α) t f).success = some true ∧
    (processDocxResume (none : Option α) t f).sections = some [("RAW_TEXT", t)] ∧
    (processDocxResume (none : Option α) t f).candidate_info = some [("name", "Unknown")] ∧
    (processDocxResume (none : Option α) t f).quality_scores = some [("overall", 1/2)] ∧
    (processDocxResume (none : Option α) t f).warnings =
      some ["No images found in DOCX, extracted text only"] ∧
    (processDocxResume (none : Option α) t f).warnings ≠ some [] ∧
    "RAW_TEXT" ∉ canonicalSectionTypes ∧
    (∀ g : α → ResultDict, processDocxResume (none : Option α) t f =
      processDocxResume (none : Option α) t g) := by
  refine ⟨?_, ?_, ?_, ?_, ?_, ?_, by decide, fun g => ?_⟩ <;> simp [processDocxResume, h]

/-- Witness for C10: concrete non-empty text. -/
theorem C10_raw_text_fallback_witness :
    ("x" ≠ "") ∧
    ((processDocxResume (none : Option Unit) "x" (fun _ => {})).success = some true ∧
     (processDocxResume (none : Option Unit) "x" (fun _ => {})).sections =
       some [("RAW_TEXT", "x")] ∧
     (processDocxResume (none : Option Unit) "x" (fun _ => {})).candidate_info =
       some [("name", "Unknown")] ∧
     (processDocxResume (none : Option Unit) "x" (fun _ => {})).quality_scores =
       some [("overall", 1/2)] ∧
     (processDocxResume (none : Option Unit) "x" (fun _ => {})).warnings =
       some ["No images found in DOCX, extracted text only"] ∧
     (processDocxResume (none : Option Unit) "x" (fun _ => {})).warnings ≠ some [] ∧
     "RAW_TEXT" ∉ canonicalSectionTypes ∧
     (∀ g : Unit → ResultDict, processDocxResume (none : Option Unit) "x" (fun _ => {}) =
       processDocxResume (none : Option Unit) "x" g)) :=
  ⟨by decide, C10_raw_text_fallback (fun _ => {}) "x" (by decide)⟩

/-- C9 counterexample: an EasyOCR detection with confidence 0.9
produces a text block whose stored confidence is 90, outside `[0,1]`. -/
theorem C9_counterexample :
    (extractTextBlocks [detC9] 100).map TextBlock.confidence = [90] ∧
    ¬ ((90 : ℚ) ≤ 1) := by
  constructor
  · norm_num [extractTextBlocks, detC9, pyInt, List.enum]
  · norm_num

/-- C9 amended: block confidence is the detection confidence scaled by
100, hence lies in `[0,100]` whenever detections report in `[0,1]`. -/
theorem C9_amended_confidence_0_100 (dets : List Detection) (hgt : ℚ)
    (h : ∀ d ∈ dets, 0 ≤ d.conf ∧ d.conf ≤ 1) :
    ∀ b ∈ extractTextBlocks dets hgt, 0 ≤ b.confidence ∧ b.confidence ≤ 100 := by
  intro b hb
  unfold extractTextBlocks at hb
  rw [List.mem_map] at hb
  obtain ⟨p, hp, rfl⟩ := hb
  obtain ⟨h0, h1⟩ := h p.2 (by
    have := List.mem_enum hp
    obtain ⟨hlt, hx⟩ := this
    rw [hx]
    exact List.get_mem _ _ _)
  constructor
  · dsimp only
    nlinarith
  · dsimp only
    nlinarith

/-- Witness for C9 amended: the concrete detection of the
counterexample has confidence in `[0,1]` and its block lands in
`[0,100]`. -/
theorem C9_amended_confidence_0_100_witness :
    (∀ d ∈ [detC9], 0 ≤ d.conf ∧ d.conf ≤ 1) ∧
    (∀ b ∈ extractTextBlocks [detC9] 100, 0 ≤ b.confidence ∧ b.confidence ≤ 100) :=
  ⟨by intro d hd; rw [List.mem_singleton] at hd; subst hd; constructor <;> norm_num [detC9],
   C9_amended_confidence_0_100 [detC9] 100
     (by intro d hd; rw [List.mem_singleton] at hd; subst hd; constructor <;> norm_num [detC9])⟩

/-- The `(y, x)` key comparison is transitive. -/
theorem pairLe_trans (a b c : ℕ × LBlock)
    (h1 : pairLe a b = true) (h2 : pairLe b c = true) : pairLe a c = true := by
  simp only [pairLe, Bool.or_eq_true, Bool.and_eq_true, decide_eq_true_eq] at *
  rcases h1 with h1 | ⟨h1, h1x⟩ <;> rcases h2 with h2 | ⟨h2, h2x⟩
  · exact Or.inl (h1.trans h2)
  · exact Or.inl (h2 ▸ h1)
  · exact Or.inl (h1 ▸ h2)
  · exact Or.inr ⟨h1.trans h2, h1x.trans h2x⟩

/-- The `(y, x)` key comparison is total. -/
theorem pairLe_total (a b : ℕ × LBlock) : (pairLe a b || pairLe b a) = true := by
  simp only [pairLe, Bool.or_eq_true, Bool.and_eq_true, decide_eq_true_eq]
  rcases lt_trichotomy a.2.y b.2.y with h | h | h
  · exact Or.inl (Or.inl h)
  · rcases le_total a.2.x b.2.x with hx | hx
    · exact Or.inl (Or.inr ⟨h, hx⟩)
    · exact Or.inr (Or.inr ⟨h.symm, hx⟩)
  · exact Or.inr (Or.inl h)

/-- C6: for a non-empty block list under a two-column layout, the
reading order is all blocks whose center lies left of the divider
(each internally sorted by `(y, x)`) followed by all blocks to the
right, never interleaved, covering every block exactly once; for a
one-column layout it is a `(y, x)` sort of all blocks. -/
theorem C6_reading_order (blocks : List LBlock) (hne : blocks ≠ []) :
    (∀ divider : ℚ, ∃ l r : List (ℕ × LBlock),
      createReadingOrder blocks (Columns.two divider) = l.map Prod.fst ++ r.map Prod.fst ∧
      (∀ p ∈ l, blocks.get? p.1 = some p.2 ∧ isLeftOf divider p.2 = true) ∧
      (∀ p ∈ r, blocks.get? p.1 = some p.2 ∧ isLeftOf divider p.2 = false) ∧
      l.Pairwise (fun p q => pairLe p q = true) ∧
      r.Pairwise (fun p q => pairLe p q = true) ∧
      (l.map Prod.fst ++ r.map Prod.fst).Perm (List.range blocks.length)) ∧
    (∃ m : List (ℕ × LBlock),
      createReadingOrder blocks Columns.one = m.map Prod.fst ∧
      (∀ p ∈ m, blocks.get? p.1 = some p.2) ∧
      m.Pairwise (fun p q => pairLe p q = true) ∧
      (m.map Prod.fst).Perm (List.range blocks.length)) := by
  have hne' : blocks.isEmpty = false := by
    cases blocks
    · exact absurd rfl hne
    · rfl
  constructor
  · intro divider
    refine ⟨(blocks.enum.filter (fun p => isLeftOf divider p.2)).mergeSort pairLe,
            (blocks.enum.filter (fun p => !isLeftOf divider p.2)).mergeSort pairLe,
            ?_, ?_, ?_, ?_, ?_, ?_⟩
    · simp [createReadingOrder, hne']
    · intro p hp
      rw [(List.mergeSort_perm _ _).mem_iff, List.mem_filter] at hp
      exact ⟨List.mem_enum_iff_get?.mp hp.1, hp.2⟩
    · intro p hp
      rw [(List.mergeSort_perm _ _).mem_iff, List.mem_filter] at hp
      refine ⟨List.mem_enum_iff_get?.mp hp.1, ?_⟩
      have := hp.2
      simpa using this
    · exact List.sorted_mergeSort pairLe_trans pairLe_total _
    · exact List.sorted_mergeSort pairLe_trans pairLe_total _
    · rw [← List.map_append]
      refine ((List.Perm.append (List.mergeSort_perm _ _)
        (List.mergeSort_perm _ _)).map Prod.fst).trans ?_
      refine ((List.filter_append_perm _ _).map Prod.fst).trans ?_
      rw [List.enum_map_fst]
  · refine ⟨blocks.enum.mergeSort pairLe, ?_, ?_, ?_, ?_⟩
    · simp [createReadingOrder, hne']
    · intro p hp
      rw [(List.mergeSort_perm _ _).mem_iff] at hp
      exact List.mem_enum_iff_get?.mp hp
    · exact List.sorted_mergeSort pairLe_trans pairLe_total _
    · refine ((List.mergeSort_perm _ _).map Prod.fst).trans ?_
      rw [List.enum_map_fst]

/-- Witness for C6: two concrete blocks, one on each side of a divider
at x = 10. -/
theorem C6_reading_order_witness :
    blocksC6 ≠ [] ∧
    ((∀ divider : ℚ, ∃ l r : List (ℕ × LBlock),
      createReadingOrder blocksC6 (Columns.two divider) = l.map Prod.fst ++ r.map Prod.fst ∧
      (∀ p ∈ l, blocksC6.get? p.1 = some p.2 ∧ isLeftOf divider p.2 = true) ∧
      (∀ p ∈ r, blocksC6.get? p.1 = some p.2 ∧ isLeftOf divider p.2 = false) ∧
      l.Pairwise (fun p q => pairLe p q = true) ∧
      r.Pairwise (fun p q => pairLe p q = true) ∧
      (l.map Prod.fst ++ r.map Prod.fst).Perm (List.range blocksC6.length)) ∧
    (∃ m : List (ℕ × LBlock),
      createReadingOrder blocksC6 Columns.one = m.map Prod.fst ∧
      (∀ p ∈ m, blocksC6.get? p.1 = some p.2) ∧
      m.Pairwise (fun p q => pairLe p q = true) ∧
      (m.map Prod.fst).Perm (List.range blocksC6.length))) :=
  ⟨by decide, C6_reading_order blocksC6 (by decide)⟩

/-! ### Dictionary lemmas for the validator -/

theorem containsKey_iff (st : Sections) (k : String) :
    containsKey st k = true ↔ k ∈ st.map Prod.fst := by
  simp [containsKey, List.any_eq_true, List.mem_map]

theorem contains_append_left (st l : Sections) (k : String)
    (h : containsKey st k = true) : containsKey (st ++ l) k = true := by
  simp only [containsKey] at h
  simp [containsKey, List.any_append, h]

theorem ensureKey_contains (st : Sections) (k : String) :
    containsKey (ensureKey st k) k = true := by
  unfold ensureKey
  split_ifs with hc
  · exact hc
  · simp [containsKey, List.any_append]

theorem contains_ensureKey (st : Sections) (k k' : String)
    (h : containsKey st k' = true) : containsKey (ensureKey st k) k' = true := by
  unfold ensureKey
  split_ifs
  · exact h
  · exact contains_append_left _ _ _ h

theorem contains_appendAt (st : Sections) (k : String) (b : Block) (k' : String)
    (h : containsKey st k' = true) : containsKey (appendAt st k b) k' = true := by
  induction st with
  | nil => simp [containsKey] at h
  | cons p rest ih =>
    obtain ⟨k0, bs⟩ := p
    by_cases hk : k0 = k
    · simp only [appendAt, if_pos hk, containsKey, List.any_cons]
      simp only [containsKey, List.any_cons] at h
      exact h
    · simp only [appendAt, if_neg hk, containsKey, List.any_cons]
      simp only [containsKey, List.any_cons] at h
      rw [Bool.or_eq_true] at h ⊢
      rcases h with h | h
      · exact Or.inl h
      · refine Or.inr ?_
        have := ih (by simp only [containsKey]; exact h)
        simpa only [containsKey] using this

theorem appendAt_keys (st : Sections) (k : String) (b : Block)
    (h : containsKey st k = true) :
    (appendAt st k b).map Prod.fst = st.map Prod.fst := by
  induction st with
  | nil => simp [containsKey] at h
  | cons p rest ih =>
    obtain ⟨k0, bs⟩ := p
    by_cases hk : k0 = k
    · simp [appendAt, hk]
    · simp only [containsKey, List.any_cons, Bool.or_eq_true, decide_eq_true_eq] at h
      rcases h with h | h
      · exact absurd h hk
      · simp [appendAt, hk, ih h]

theorem appendAt_last (acc : Sections) (k : String) (done : List Block) (b : Block)
    (h : k ∉ acc.map Prod.fst) :
    appendAt (acc ++ [(k, done)]) k b = acc ++ [(k, done ++ [b])] := by
  induction acc with
  | nil => simp [appendAt]
  | cons p rest ih =>
    obtain ⟨k0, bs⟩ := p
    simp only [List.map_cons, List.mem_cons] at h
    push_neg at h
    have hk : k0 ≠ k := fun he => h.1 he.symm
    simp [appendAt, hk, ih h.2]

theorem ensureKey_of_not_contains (st : Sections) (k : String)
    (h : containsKey st k = false) : ensureKey st k = st ++ [(k, [])] := by
  unfold ensureKey
  rw [h]
  rfl

theorem nodup_keys_ensureKey (st : Sections) (k : String)
    (h : (st.map Prod.fst).Nodup) : ((ensureKey st k).map Prod.fst).Nodup := by
  unfold ensureKey
  split_ifs with hc
  · exact h
  · rw [List.map_append, List.nodup_append]
    refine ⟨h, by simp, ?_⟩
    rw [List.map_singleton, List.disjoint_singleton]
    exact fun hm => hc ((containsKey_iff st k).mpr hm)

theorem allBlocks_appendAt (P : String → Block → Prop) (k : String) (b : Block) :
    ∀ st : Sections, allBlocks P st → P k b → allBlocks P (appendAt st k b) := by
  intro st
  induction st with
  | nil =>
    intro _ hpb p hp b' hb'
    rw [show appendAt [] k b = [(k, [b])] from rfl, List.mem_singleton] at hp
    subst hp
    rw [List.mem_singleton] at hb'
    subst hb'
    exact hpb
  | cons q rest ih =>
    obtain ⟨k0, bs⟩ := q
    intro hall hpb p hp b' hb'
    have hall' : allBlocks P rest := fun p hp => hall p (List.mem_cons_of_mem _ hp)
    by_cases hk : k0 = k
    · simp only [appendAt, if_pos hk] at hp
      rcases List.mem_cons.mp hp with rfl | hp'
      · rcases List.mem_append.mp hb' with hb'' | hb''
        · exact hall (k0, bs) (List.mem_cons_self _ _) b' hb''
        · rw [List.mem_singleton] at hb''
          subst hb''
          exact hk ▸ hpb
      · exact hall p (List.mem_cons_of_mem _ hp') b' hb'
    · simp only [appendAt, if_neg hk] at hp
      rcases List.mem_cons.mp hp with rfl | hp'
      · exact hall (k0, bs) (List.mem_cons_self _ _) b' hb'
      · exact ih hall' hpb p hp' b' hb'

theorem allBlocks_ensureKey (P : String → Block → Prop) (st : Sections) (k : String)
    (hall : allBlocks P st) : allBlocks P (ensureKey st k) := by
  unfold ensureKey
  split_ifs
  · exact hall
  · intro p hp b hb
    rcases List.mem_append.mp hp with h | h
    · exact hall p h b hb
    · rw [List.mem_singleton] at h
      subst h
      simp at hb

/-! ### Specification of `_validate_content` and `_find_correct_section` -/

theorem validateContent_valid_eq (t k : String) :
    (validateContent t k).valid = decide ((2 : ℚ)/5 ≤ (validateContent t k).conf) := by
  unfold validateContent
  split
  · norm_num
  · rfl

theorem bestFold_spec (t : String) :
    ∀ (l : List (String × Signature)) (acc : Option String × ℚ),
      (∀ s, acc.1 = some s → (validateContent t s).conf = acc.2) →
      ∀ s, (l.foldl (fun acc p =>
          if acc.2 < (validateContent t p.1).conf
          then (some p.1, (validateContent t p.1).conf) else acc) acc).1 = some s →
        (validateContent t s).conf =
          (l.foldl (fun acc p =>
            if acc.2 < (validateContent t p.1).conf
            then (some p.1, (validateContent t p.1).conf) else acc) acc).2 := by
  intro l
  induction l with
  | nil => intro acc h s hs; exact h s hs
  | cons p rest ih =>
    intro acc h s hs
    rw [List.foldl_cons] at hs ⊢
    refine ih _ ?_ s hs
    intro s' hs'
    dsimp only at hs' ⊢
    by_cases hc : acc.2 < (validateContent t p.1).conf
    · rw [if_pos hc] at hs' ⊢
      cases hs'
      rfl
    · rw [if_neg hc] at hs' ⊢
      exact h s' hs'

theorem findCorrectSection_spec (t cs : String)
    (h : findCorrectSection t = some cs) :
    (1 : ℚ)/2 ≤ (validateContent t cs).conf ∧ (validateContent t cs).valid = true := by
  unfold findCorrectSection at h
  dsimp only at h
  split_ifs at h with hge
  · have hconf := bestFold_spec t signatures (none, 0) (by intro s hs; cases hs) cs h
    refine ⟨hconf ▸ hge, ?_⟩
    rw [validateContent_valid_eq]
    rw [decide_eq_true_eq]
    rw [hconf]
    linarith

/-- Branch-level restatement of `processBlock` used by the proofs. -/
theorem processBlock_eq (st : Sections) (name : String) (b : Block) :
    processBlock st name b =
      if pyStrip b.text = "" then st
      else if ((validateContent b.text name).valid
          && decide ((1 : ℚ)/2 ≤ (validateContent b.text name).conf)) = true
      then appendAt st name b
      else
        match findCorrectSection b.text with
        | some cs =>
          if cs ≠ name then appendAt (ensureKey st cs) cs b
          else if decide ((validateContent b.text name).conf < (3 : ℚ)/10) = true then st
          else appendAt st name { b with warning := some (validateContent b.text name).reason }
        | none =>
          if decide ((validateContent b.text name).conf < (3 : ℚ)/10) = true then st
          else appendAt st name { b with warning := some (validateContent b.text name).reason } :=
  rfl

/-! ### Invariants of `validate_sections` -/

theorem stable_conf (k : String) (b : Block) (h : stable k b) :
    (3 : ℚ)/10 ≤ (validateContent b.text k).conf := by
  rcases h.2 with h1 | ⟨-, h2, -⟩
  · rw [Bool.and_eq_true, decide_eq_true_eq] at h1
    linarith [h1.2]
  · rw [decide_eq_false_iff_not] at h2
    linarith [not_lt.mp h2]

theorem processBlock_inv (s st : Sections) (name : String)
    (bsAll : List Block) (b : Block)
    (hgood : goodState s st) (hname : containsKey st name = true)
    (hmem : (name, bsAll) ∈ s) (hb : b ∈ bsAll) :
    goodState s (processBlock st name b) ∧
    containsKey (processBlock st name b) name = true := by
  obtain ⟨hnd, hall⟩ := hgood
  rw [processBlock_eq]
  by_cases ht : pyStrip b.text = ""
  · rw [if_pos ht]
    exact ⟨⟨hnd, hall⟩, hname⟩
  · rw [if_neg ht]
    by_cases hc : ((validateContent b.text name).valid
        && decide ((1 : ℚ)/2 ≤ (validateContent b.text name).conf)) = true
    · rw [if_pos hc]
      refine ⟨⟨?_, ?_⟩, contains_appendAt _ _ _ _ hname⟩
      · rw [appendAt_keys st name b hname]
        exact hnd
      · exact allBlocks_appendAt _ _ _ st hall
          ⟨⟨ht, Or.inl hc⟩, Or.inl ⟨(name, bsAll), hmem, rfl, b, hb, rfl⟩⟩
    · rw [if_neg hc]
      cases hfc : findCorrectSection b.text with
      | some cs =>
        dsimp only
        by_cases hcs : cs ≠ name
        · rw [if_pos hcs]
          obtain ⟨hge, hv⟩ := findCorrectSection_spec b.text cs hfc
          refine ⟨⟨?_, ?_⟩, ?_⟩
          · rw [appendAt_keys _ _ _ (ensureKey_contains st cs)]
            exact nodup_keys_ensureKey st cs hnd
          · refine allBlocks_appendAt _ _ _ _ (allBlocks_ensureKey _ st cs hall) ?_
            refine ⟨⟨ht, Or.inl ?_⟩, Or.inr hfc⟩
            rw [Bool.and_eq_true, decide_eq_true_eq]
            exact ⟨hv, hge⟩
          · exact contains_appendAt _ _ _ _ (contains_ensureKey st cs name hname)
        · exfalso
          push_neg at hcs
          subst hcs
          obtain ⟨hge, hv⟩ := findCorrectSection_spec b.text cs hfc
          apply hc
          rw [Bool.and_eq_true, decide_eq_true_eq]
          exact ⟨hv, hge⟩
      | none =>
        dsimp only
        by_cases hd : decide ((validateContent b.text name).conf < (3 : ℚ)/10) = true
        · rw [if_pos hd]
          exact ⟨⟨hnd, hall⟩, hname⟩
        · rw [if_neg hd]
          have hd' : decide ((validateContent b.text name).conf < (3 : ℚ)/10) = false := by
            rcases Bool.eq_false_or_eq_true
              (decide ((validateContent b.text name).conf < (3 : ℚ)/10)) with h0 | h0
            · exact absurd h0 hd
            · exact h0
          refine ⟨⟨?_, ?_⟩, contains_appendAt _ _ _ _ hname⟩
          · rw [appendAt_keys st name _ hname]
            exact hnd
          · exact allBlocks_appendAt _ _ _ st hall
              ⟨⟨ht, Or.inr ⟨hfc, hd', rfl⟩⟩, Or.inl ⟨(name, bsAll), hmem, rfl, b, hb, rfl⟩⟩

theorem foldBlocks_inv (s : Sections) (name : String) (bsAll : List Block)
    (hmem : (name, bsAll) ∈ s) :
    ∀ (bs : List Block) (st : Sections), (∀ b ∈ bs, b ∈ bsAll) →
      goodState s st → containsKey st name = true →
      goodState s (bs.foldl (fun st b => processBlock st name b) st) := by
  intro bs
  induction bs with
  | nil => intro st _ hg _; exact hg
  | cons b bs ih =>
    intro st hsub hg hn
    rw [List.foldl_cons]
    obtain ⟨hg', hn'⟩ :=
      processBlock_inv s st name bsAll b hg hn hmem (hsub b (List.mem_cons_self _ _))
    exact ih _ (fun b' hb' => hsub b' (List.mem_cons_of_mem _ hb')) hg' hn'

theorem processSection_inv (s st : Sections) (entry : String × List Block)
    (hmem : entry ∈ s) (hg : goodState s st) :
    goodState s (processSection st entry) := by
  obtain ⟨k, bs⟩ := entry
  exact foldBlocks_inv s k bs hmem bs (ensureKey st k) (fun b hb => hb)
    ⟨nodup_keys_ensureKey st k hg.1, allBlocks_ensureKey _ st k hg.2⟩
    (ensureKey_contains st k)

/-- Every output of `validate_sections` has unique keys and only
stable blocks with recorded provenance. -/
theorem validateSections_inv (s : Sections) : goodState s (validateSections s) := by
  unfold validateSections
  have main : ∀ (l : List (String × List Block)) (acc : Sections),
      (∀ e ∈ l, e ∈ s) → goodState s acc → goodState s (l.foldl processSection acc) := by
    intro l
    induction l with
    | nil => intro acc _ hg; exact hg
    | cons e l ih =>
      intro acc hsub hg
      rw [List.foldl_cons]
      exact ih _ (fun e' he' => hsub e' (List.mem_cons_of_mem _ he'))
        (processSection_inv s acc e (hsub e (List.mem_cons_self _ _)) hg)
  exact main s [] (fun e he => he)
    ⟨List.nodup_nil, fun p hp => absurd hp (List.not_mem_nil p)⟩

/-! ### The validator is the identity on stable inputs -/

theorem processBlock_stable_eq (acc : Sections) (k : String) (done : List Block) (b : Block)
    (hk : k ∉ acc.map Prod.fst) (hb : stable k b) :
    processBlock (acc ++ [(k, done)]) k b = acc ++ [(k, done ++ [b])] := by
  obtain ⟨ht, hcase⟩ := hb
  rw [processBlock_eq, if_neg ht]
  by_cases hc : ((validateContent b.text k).valid
      && decide ((1 : ℚ)/2 ≤ (validateContent b.text k).conf)) = true
  · rw [if_pos hc]
    exact appendAt_last acc k done b hk
  · rw [if_neg hc]
    rcases hcase with h1 | ⟨hfc, hdrop, hw⟩
    · exact absurd h1 hc
    · rw [hfc]
      dsimp only
      have hnd : ¬(decide ((validateContent b.text k).conf < (3 : ℚ)/10) = true) := by
        rw [hdrop]
        simp
      rw [if_neg hnd]
      have hbeq : { b with warning := some (validateContent b.text k).reason } = b := by
        cases b with
        | mk t w =>
          dsimp only at hw
          rw [hw]
      rw [hbeq]
      exact appendAt_last acc k done b hk

theorem foldBlocks_stable (acc : Sections) (k : String) (hk : k ∉ acc.map Prod.fst) :
    ∀ (bs done : List Block), (∀ b ∈ bs, stable k b) →
      bs.foldl (fun st b => processBlock st k b) (acc ++ [(k, done)]) =
        acc ++ [(k, done ++ bs)] := by
  intro bs
  induction bs with
  | nil => intro done _; simp
  | cons b bs ih =>
    intro done hstable
    rw [List.foldl_cons,
      processBlock_stable_eq acc k done b hk (hstable b (List.mem_cons_self _ _)),
      ih (done ++ [b]) (fun b' hb' => hstable b' (List.mem_cons_of_mem _ hb'))]
    simp

theorem processSection_stable (acc : Sections) (k : String) (bs : List Block)
    (hk : k ∉ acc.map Prod.fst) (hst : ∀ b ∈ bs, stable k b) :
    processSection acc (k, bs) = acc ++ [(k, bs)] := by
  have hens : ensureKey acc k = acc ++ [(k, [])] := by
    refine ensureKey_of_not_contains acc k ?_
    rcases Bool.eq_false_or_eq_true (containsKey acc k) with h | h
    · exact absurd ((containsKey_iff acc k).mp h) hk
    · exact h
  show bs.foldl (fun st b => processBlock st k b) (ensureKey acc k) = acc ++ [(k, bs)]
  rw [hens, foldBlocks_stable acc k hk bs [] hst]
  simp

theorem validateSections_of_stable (s : Sections)
    (hnd : (s.map Prod.fst).Nodup)
    (hst : ∀ p ∈ s, ∀ b ∈ p.2, stable p.1 b) :
    validateSections s = s := by
  unfold validateSections
  suffices main : ∀ (l : List (String × List Block)) (acc : Sections),
      (acc.map Prod.fst ++ l.map Prod.fst).Nodup →
      (∀ p ∈ l, ∀ b ∈ p.2, stable p.1 b) →
      l.foldl processSection acc = acc ++ l by
    have := main s [] (by simpa using hnd) hst
    simpa using this
  intro l
  induction l with
  | nil => intro acc _ _; simp
  | cons p l ih =>
    intro acc hnd' hst'
    obtain ⟨k, bs⟩ := p
    rw [List.foldl_cons]
    have hk : k ∉ acc.map Prod.fst := by
      rw [List.nodup_append] at hnd'
      intro hmem
      exact hnd'.2.2 hmem (List.mem_cons_self _ _)
    rw [processSection_stable acc k bs hk
      (fun b hb => hst' (k, bs) (List.mem_cons_self _ _) b hb)]
    rw [ih (acc ++ [(k, bs)])
      (by rw [List.map_append, List.append_assoc]; exact hnd')
      (fun p hp => hst' p (List.mem_cons_of_mem _ hp))]
    simp

/-- C4: `validate_sections` is idempotent: applied to its own output it
returns the same sections with no further moves, drops or
re-assignments. -/
theorem C4_validateSections_idempotent (s : Sections) :
    validateSections (validateSections s) = validateSections s := by
  obtain ⟨hnd, hall⟩ := validateSections_inv s
  exact validateSections_of_stable (validateSections s) hnd
    (fun p hp b hb => (hall p hp b hb).1)

/-- C5: every surviving block has validation confidence at least the
drop threshold 0.3 against the section that finally holds it, and its
final section is its original section or the single relocation target
chosen by `_find_correct_section` (one relocation step at most, so no
relocation cycles). -/
theorem C5_survivor_confidence (s : Sections) (k : String) (bs : List Block) (b : Block)
    (h1 : (k, bs) ∈ validateSections s) (h2 : b ∈ bs) :
    (3 : ℚ)/10 ≤ (validateContent b.text k).conf ∧
    ((∃ q ∈ s, q.1 = k ∧ ∃ b₀ ∈ q.2, b₀.text = b.text) ∨
      findCorrectSection b.text = some k) := by
  obtain ⟨hst, horig⟩ := (validateSections_inv s).2 (k, bs) h1 b h2
  exact ⟨stable_conf k b hst, horig⟩

set_option maxRecDepth 100000 in
/-- Witness for C5: the concrete employment block survives in
EMPLOYMENT with confidence above the drop threshold. -/
theorem C5_survivor_confidence_witness :
    (("EMPLOYMENT", [bC5]) ∈ validateSections sectionsC5 ∧ bC5 ∈ [bC5]) ∧
    ((3 : ℚ)/10 ≤ (validateContent bC5.text ("EMPLOYMENT")).conf ∧
     ((∃ q ∈ sectionsC5, q.1 = "EMPLOYMENT" ∧ ∃ b₀ ∈ q.2, b₀.text = bC5.text) ∨
       findCorrectSection bC5.text = some ("EMPLOYMENT"))) := by
  have he : validateSections sectionsC5 = [("EMPLOYMENT", [bC5])] := by
    with_unfolding_all decide
  have h1 : ("EMPLOYMENT", [bC5]) ∈ validateSections sectionsC5 := by
    rw [he]
    exact List.mem_singleton.mpr rfl
  have h2 : bC5 ∈ [bC5] := List.mem_singleton.mpr rfl
  exact ⟨⟨h1, h2⟩, C5_survivor_confidence sectionsC5 ("EMPLOYMENT") [bC5] bC5 h1 h2⟩

set_option maxRecDepth 100000 in
/-- C2 counterexample: the block `bC2` scores exactly 0.4 in its
assigned CERTIFICATIONS section (within `[0.4, 0.5)`), yet
`validate_sections` does not retain it there with a warning: it
relocates it to EDUCATION. -/
theorem C2_counterexample :
    ((2 : ℚ)/5 ≤ (validateContent bC2.text ("CERTIFICATIONS")).conf ∧
     (validateContent bC2.text ("CERTIFICATIONS")).conf < (1 : ℚ)/2) ∧
    validateSections [("CERTIFICATIONS", [bC2])] =
      [("CERTIFICATIONS", []), ("EDUCATION", [bC2])] ∧
    ¬ ∃ p ∈ validateSections [("CERTIFICATIONS", [bC2])],
        p.1 = "CERTIFICATIONS" ∧ bC2 ∈ p.2 := by
  refine ⟨⟨by with_unfolding_all decide, by with_unfolding_all decide⟩,
    by with_unfolding_all decide, by with_unfolding_all decide⟩

/-- C2 amended: a block scoring in `[0.4, 0.5)` against its assigned
section is still sent through relocation: it moves to the best-scoring
alternate type when that type reaches 0.5 (necessarily a different
type), and only when no such type exists is it retained, flagged with a
warning. Only blocks scoring at least 0.5 are retained cleanly. -/
theorem C2_amended_band_relocates (name : String) (b : Block)
    (h1 : pyStrip b.text ≠ "")
    (h2 : (2 : ℚ)/5 ≤ (validateContent b.text name).conf)
    (h3 : (validateContent b.text name).conf < (1 : ℚ)/2) :
    findCorrectSection b.text ≠ some name ∧
    validateSections [(name, [b])] =
      (match findCorrectSection b.text with
       | some cs => [(name, []), (cs, [b])]
       | none =>
         [(name, [{ b with warning := some (validateContent b.text name).reason }])]) := by
  have hne : findCorrectSection b.text ≠ some name := by
    intro heq
    have := (findCorrectSection_spec b.text name heq).1
    linarith
  refine ⟨hne, ?_⟩
  have hstep : validateSections [(name, [b])] = processBlock [(name, [])] name b := by rfl
  rw [hstep, processBlock_eq, if_neg h1]
  have hc : ¬ (((validateContent b.text name).valid
      && decide ((1 : ℚ)/2 ≤ (validateContent b.text name).conf)) = true) := by
    rw [Bool.and_eq_true]
    rintro ⟨-, hdec⟩
    rw [decide_eq_true_eq] at hdec
    linarith
  rw [if_neg hc]
  cases hfc : findCorrectSection b.text with
  | some cs =>
    dsimp only
    have hcs : cs ≠ name := fun he => hne (he ▸ hfc)
    have hnc : name ≠ cs := fun h => hcs h.symm
    rw [if_pos hcs]
    have hcont : containsKey [(name, [])] cs = false := by
      simp [containsKey]
      exact hnc
    rw [ensureKey_of_not_contains _ _ hcont]
    simp [appendAt, hnc]
  | none =>
    dsimp only
    have hd : ¬((decide ((validateContent b.text name).conf < (3 : ℚ)/10)) = true) := by
      rw [decide_eq_true_eq]
      intro hlt
      linarith
    rw [if_neg hd]
    simp [appendAt]

set_option maxRecDepth 100000 in
/-- Witness for the amended C2: the concrete block `bC2` at
CERTIFICATIONS is in the band and gets relocated to EDUCATION. -/
theorem C2_amended_band_relocates_witness :
    (pyStrip bC2.text ≠ "" ∧
     (2 : ℚ)/5 ≤ (validateContent bC2.text ("CERTIFICATIONS")).conf ∧
     (validateContent bC2.text ("CERTIFICATIONS")).conf < (1 : ℚ)/2) ∧
    (findCorrectSection bC2.text ≠ some ("CERTIFICATIONS") ∧
     validateSections [("CERTIFICATIONS", [bC2])] =
       (match findCorrectSection bC2.text with
        | some cs => [("CERTIFICATIONS", []), (cs, [bC2])]
        | none =>
          [("CERTIFICATIONS",
            [{ bC2 with warning := some (validateContent bC2.text ("CERTIFICATIONS")).reason }])])) := by
  have h1 : pyStrip bC2.text ≠ "" := by with_unfolding_all decide
  have h2 : (2 : ℚ)/5 ≤ (validateContent bC2.text ("CERTIFICATIONS")).conf := by
    with_unfolding_all decide
  have h3 : (validateContent bC2.text ("CERTIFICATIONS")).conf < (1 : ℚ)/2 := by
    with_unfolding_all decide
  exact ⟨⟨h1, h2, h3⟩, C2_amended_band_relocates ("CERTIFICATIONS") bC2 h1 h2 h3⟩

end RF
